import Mathlib

/-!
# Verification of the tonneru VPN orchestrator against its specification

Shallow embedding of the string- and state-level logic of the tonneru
repository (a Rust TUI/daemon driving WireGuard tunnels through a privileged
helper).  Rust strings are embedded as `List Char`; fallible operations return
`Option`/`Except`; subprocess-backed operations are parametrised by oracle
inputs describing the helper's observable behaviour.
-/

/-! ## Generic string utilities (embeddings of Rust `str` operations) -/

/-- `startsWithL pat l` : `pat` is a prefix of `l` (Rust `str::starts_with`). -/
def startsWithL : List Char → List Char → Bool
  | [], _ => true
  | _ :: _, [] => false
  | p :: ps, c :: cs => (p = c) && startsWithL ps cs

/-- `containsSub l pat` : `pat` occurs as a contiguous substring of `l`
(Rust `str::contains`). -/
def containsSub : List Char → List Char → Bool
  | [], pat => startsWithL pat []
  | c :: cs, pat => startsWithL pat (c :: cs) || containsSub cs pat

/-- Rust `char::to_lowercase` restricted to ASCII, matching `Char.toLower`;
applied characterwise this embeds `str::to_lowercase` for the ASCII strings
the program manipulates. -/
def lowerL (l : List Char) : List Char := l.map Char.toLower

/-- Rust `str::split_whitespace`: split on whitespace runs, dropping empty
pieces.  The accumulator holds the current word reversed. -/
def splitWsAux : List Char → List Char → List (List Char)
  | [], acc => if acc.isEmpty then [] else [acc.reverse]
  | c :: rest, acc =>
    if c.isWhitespace then
      if acc.isEmpty then splitWsAux rest []
      else acc.reverse :: splitWsAux rest []
    else splitWsAux rest (c :: acc)

def splitWs (l : List Char) : List (List Char) := splitWsAux l []

theorem splitWsAux_cons (c : Char) (rest acc : List Char) :
    splitWsAux (c :: rest) acc =
      if c.isWhitespace then
        if acc.isEmpty then splitWsAux rest []
        else acc.reverse :: splitWsAux rest []
      else splitWsAux rest (c :: acc) := rfl

/-- Numeric value of a digit string (most significant first). -/
def digitsVal (l : List Char) : Nat :=
  l.foldl (fun a c => a * 10 + (c.toNat - 48)) 0

/-- Embedding of Rust `str::parse::<u32>()`: an optional leading `'+'`,
then one or more ASCII digits, and the value must fit in 32 bits. -/
def parseU32 (l : List Char) : Option Nat :=
  let l' := if l.head? = some '+' then l.tail else l
  if l'.isEmpty then none
  else if l'.all Char.isDigit then
    let v := digitsVal l'
    if v < 4294967296 then some v else none
  else none

/-- First whitespace-separated token of `parts` that parses as a `u32`
(the `for part in … { if let Ok(mins) = part.parse() { return … } }` loop). -/
def firstU32 (parts : List (List Char)) : Option Nat :=
  parts.findSome? parseU32

/-! ## C3: handshake staleness (src/vpn/wireguard.rs, `is_handshake_stale`) -/

/-- Embedding of `is_handshake_stale` (wireguard.rs:198-222): lowercase the
phrase; "hour"/"day" ⇒ stale; else if it mentions "minute", the first numeric
token decides (≥ 3 ⇒ stale); else "second" without "minute" ⇒ fresh;
anything else ⇒ stale. -/
def is_handshake_stale (handshake : List Char) : Bool :=
  let hl := lowerL handshake
  if containsSub hl "hour".data || containsSub hl "day".data then true
  else
    match (if containsSub hl "minute".data then firstU32 (splitWs hl) else none) with
    | some mins => decide (3 ≤ mins)
    | none =>
      if containsSub hl "second".data && !containsSub hl "minute".data then false
      else true

example : is_handshake_stale "53 seconds ago".data = false := by decide
example : is_handshake_stale "2 minutes, 5 seconds ago".data = false := by decide
example : is_handshake_stale "3 minutes, 5 seconds ago".data = true := by decide
example : is_handshake_stale "1 hour, 2 minutes ago".data = true := by decide
example : is_handshake_stale "garbage".data = true := by decide
example : is_handshake_stale "1 hour, 5 seconds ago".data = true := by decide

/-! ### Substring lemmas -/

theorem mem_of_startsWithL {pat l : List Char} (h : startsWithL pat l = true) :
    ∀ c ∈ pat, c ∈ l := by
  induction pat generalizing l with
  | nil => intro c hc; cases hc
  | cons p ps ih =>
    cases l with
    | nil => simp [startsWithL] at h
    | cons a as =>
      simp only [startsWithL, Bool.and_eq_true, decide_eq_true_eq] at h
      intro c hc
      rcases List.mem_cons.mp hc with rfl | hc
      · exact List.mem_cons.mpr (Or.inl h.1)
      · exact List.mem_cons.mpr (Or.inr (ih h.2 c hc))

theorem mem_of_containsSub {l pat : List Char} (h : containsSub l pat = true) :
    ∀ c ∈ pat, c ∈ l := by
  induction l with
  | nil =>
    cases pat with
    | nil => intro c hc; cases hc
    | cons p ps => simp [containsSub, startsWithL] at h
  | cons a as ih =>
    simp only [containsSub, Bool.or_eq_true] at h
    rcases h with h | h
    · exact mem_of_startsWithL h
    · intro c hc; exact List.mem_cons.mpr (Or.inr (ih h c hc))

theorem containsSub_append_right {l₂ pat : List Char} (l₁ : List Char)
    (h : containsSub l₂ pat = true) : containsSub (l₁ ++ l₂) pat = true := by
  induction l₁ with
  | nil => simpa using h
  | cons a as ih =>
    simp only [List.cons_append, containsSub, Bool.or_eq_true]
    exact Or.inr ih

/-- If some character of the pattern does not occur in the haystack, the
pattern is not a substring. -/
theorem containsSub_eq_false_of_not_mem {l pat : List Char} {c : Char}
    (hc : c ∈ pat) (hl : c ∉ l) : containsSub l pat = false := by
  cases h : containsSub l pat
  · rfl
  · exact absurd (mem_of_containsSub h c hc) hl

/-! ### Character class lemmas -/

theorem char_toNat_of_isDigit {c : Char} (h : c.isDigit = true) :
    48 ≤ c.toNat ∧ c.toNat ≤ 57 := by
  simp only [Char.isDigit, Bool.and_eq_true, decide_eq_true_eq] at h
  exact ⟨UInt32.le_toNat_of_le (by decide) h.1, UInt32.toNat_le_of_le (by decide) h.2⟩

theorem toLower_of_isDigit {c : Char} (h : c.isDigit = true) : c.toLower = c := by
  have hd := char_toNat_of_isDigit h
  simp only [Char.toLower]
  rw [if_neg]
  intro hc
  omega

theorem not_isWhitespace_of_isDigit {c : Char} (h : c.isDigit = true) :
    c.isWhitespace = false := by
  have hd := char_toNat_of_isDigit h
  cases hw : c.isWhitespace
  · rfl
  · exfalso
    simp only [Char.isWhitespace, Bool.or_eq_true, decide_eq_true_eq] at hw
    rcases hw with ((rfl | rfl) | rfl) | rfl <;> exact absurd hd (by decide)

theorem ne_plus_of_isDigit {c : Char} (h : c.isDigit = true) : c ≠ '+' := by
  intro hc
  rw [hc] at h
  exact absurd h (by decide)

/-! ### splitWs / parseU32 lemmas for digit-prefixed phrases -/

theorem map_toLower_of_digits {ds : List Char} (hd : ds.all Char.isDigit = true) :
    ds.map Char.toLower = ds := by
  induction ds with
  | nil => rfl
  | cons c cs ih =>
    simp only [List.all_cons, Bool.and_eq_true] at hd
    simp [toLower_of_isDigit hd.1, ih hd.2]

theorem splitWsAux_nonws {w : List Char} (hw : ∀ c ∈ w, c.isWhitespace = false) :
    ∀ (rest acc : List Char),
      splitWsAux (w ++ rest) acc = splitWsAux rest (w.reverse ++ acc) := by
  induction w with
  | nil => intro rest acc; simp
  | cons c cs ih =>
    intro rest acc
    simp only [List.cons_append, splitWsAux, hw c (List.mem_cons_self c cs)]
    rw [if_neg (by simp), List.append_eq,
      ih (fun x hx => hw x (List.mem_cons_of_mem c hx)) rest (c :: acc)]
    simp

theorem splitWs_minutes {ds : List Char} (hne : ds ≠ []) (hd : ds.all Char.isDigit = true) :
    splitWs (ds ++ " minutes ago".data) = [ds, "minutes".data, "ago".data] := by
  have hw : ∀ c ∈ ds, c.isWhitespace = false := fun c hc =>
    not_isWhitespace_of_isDigit (List.all_eq_true.mp hd c hc)
  have h1 : " minutes ago".data = ' ' :: "minutes ago".data := rfl
  have h2 : ds.reverse.isEmpty = false := by
    cases ds with
    | nil => exact absurd rfl hne
    | cons c cs => simp
  unfold splitWs
  rw [splitWsAux_nonws hw _ [], List.append_nil, h1]
  rw [splitWsAux_cons, if_pos (by decide), if_neg (by simp [h2]), List.reverse_reverse]
  congr 1

theorem parseU32_digits {ds : List Char} (hne : ds ≠ []) (hd : ds.all Char.isDigit = true) :
    parseU32 ds = if digitsVal ds < 4294967296 then some (digitsVal ds) else none := by
  obtain ⟨c, cs, rfl⟩ : ∃ c cs, ds = c :: cs := by
    cases ds with
    | nil => exact absurd rfl hne
    | cons c cs => exact ⟨c, cs, rfl⟩
  have hc : c.isDigit = true := by
    have := List.all_eq_true.mp hd c (List.mem_cons_self c cs)
    simpa using this
  have hcp : ¬((c :: cs).head? = some '+') := by
    simp [ne_plus_of_isDigit hc]
  simp only [parseU32, if_neg hcp]
  rw [if_neg (show ¬((c :: cs).isEmpty = true) by simp), if_pos hd]

theorem firstU32_minutes {ds : List Char} (hne : ds ≠ []) (hd : ds.all Char.isDigit = true) :
    firstU32 [ds, "minutes".data, "ago".data] =
      if digitsVal ds < 4294967296 then some (digitsVal ds) else none := by
  simp only [firstU32, List.findSome?]
  rw [parseU32_digits hne hd]
  by_cases h : digitsVal ds < 4294967296
  · simp [h]
  · simp [h]
    decide

/-- C3 counterexample: `"1 hour, 5 seconds ago"` contains "second" and does not
contain "minute", yet `is_handshake_stale` reports it stale (the hour/day check
runs first), refuting the claim that every such string is fresh. -/
theorem c3_second_without_minute_counterexample :
    containsSub (lowerL "1 hour, 5 seconds ago".data) "second".data = true ∧
    containsSub (lowerL "1 hour, 5 seconds ago".data) "minute".data = false ∧
    is_handshake_stale "1 hour, 5 seconds ago".data = true := by decide

/-- C3 (amended): staleness of the parsed handshake phrase.  A phrase
mentioning "second" is fresh only when it mentions none of "minute", "hour"
and "day"; "hour"/"day" always mean stale; `"N minutes ago"` is stale exactly
when `N ≥ 3`; a phrase mentioning none of the four words is stale. -/
theorem c3_handshake_stale_spec :
    (∀ l : List Char,
      (containsSub (lowerL l) "hour".data = true ∨
        containsSub (lowerL l) "day".data = true) →
      is_handshake_stale l = true) ∧
    (∀ l : List Char,
      containsSub (lowerL l) "second".data = true →
      containsSub (lowerL l) "minute".data = false →
      containsSub (lowerL l) "hour".data = false →
      containsSub (lowerL l) "day".data = false →
      is_handshake_stale l = false) ∧
    (∀ ds : List Char, ds ≠ [] → ds.all Char.isDigit = true →
      is_handshake_stale (ds ++ " minutes ago".data) = decide (3 ≤ digitsVal ds)) ∧
    (∀ l : List Char,
      containsSub (lowerL l) "hour".data = false →
      containsSub (lowerL l) "day".data = false →
      containsSub (lowerL l) "minute".data = false →
      containsSub (lowerL l) "second".data = false →
      is_handshake_stale l = true) := by
  refine ⟨fun l h => ?_, fun l hs hm hh hd => ?_, fun ds hne hd => ?_,
      fun l hh hd hm hs => ?_⟩
  · rcases h with h | h <;> simp [is_handshake_stale, h]
  · simp [is_handshake_stale, hs, hm, hh, hd]
  · have hdig : ∀ c ∈ ds, c.isDigit = true := List.all_eq_true.mp hd
    have _hlow : lowerL (ds ++ " minutes ago".data) = ds ++ " minutes ago".data := by
      unfold lowerL
      rw [List.map_append, map_toLower_of_digits hd]
      congr 1
    have hnotmem : ∀ c : Char, c.isDigit = false → c ∉ " minutes ago".data →
        c ∉ ds ++ " minutes ago".data := by
      intro c hcd hcm hmem
      rcases List.mem_append.mp hmem with h | h
      · rw [hdig c h] at hcd; cases hcd
      · exact hcm h
    have hh' : containsSub (ds ++ " minutes ago".data) "hour".data = false :=
      containsSub_eq_false_of_not_mem (c := 'h') (by decide)
        (hnotmem 'h' (by decide) (by decide))
    have hd' : containsSub (ds ++ " minutes ago".data) "day".data = false :=
      containsSub_eq_false_of_not_mem (c := 'd') (by decide)
        (hnotmem 'd' (by decide) (by decide))
    have hs' : containsSub (ds ++ " minutes ago".data) "second".data = false :=
      containsSub_eq_false_of_not_mem (c := 'c') (by decide)
        (hnotmem 'c' (by decide) (by decide))
    have hm' : containsSub (ds ++ " minutes ago".data) "minute".data = true :=
      containsSub_append_right ds (by decide)
    rw [is_handshake_stale]
    rw [show lowerL (ds ++ " minutes ago".data) = ds ++ " minutes ago".data from _hlow]
    rw [hh', hd', hm', splitWs_minutes hne hd, firstU32_minutes hne hd]
    by_cases hlt : digitsVal ds < 4294967296
    · simp [hlt]
    · have h3 : 3 ≤ digitsVal ds := by omega
      simp [hlt, hs', h3]
  · simp [is_handshake_stale, hh, hd, hm, hs]

/-- Witness for `c3_handshake_stale_spec` at concrete phrases. -/
theorem c3_handshake_stale_spec_witness :
    is_handshake_stale "1 hour, 2 minutes ago".data = true ∧
    is_handshake_stale "45 seconds ago".data = false ∧
    is_handshake_stale ("2".data ++ " minutes ago".data) = decide (3 ≤ digitsVal "2".data) ∧
    is_handshake_stale "xyz".data = true :=
  ⟨c3_handshake_stale_spec.1 _ (Or.inl (by decide)),
   c3_handshake_stale_spec.2.1 _ (by decide) (by decide) (by decide) (by decide),
   c3_handshake_stale_spec.2.2.1 "2".data (by decide) (by decide),
   c3_handshake_stale_spec.2.2.2 _ (by decide) (by decide) (by decide) (by decide)⟩

/-! ## C2: config save/load round trip (src/config/mod.rs) -/

/-- `NetworkRule` (config/mod.rs:5-16). -/
structure NetworkRule where
  identifier : List Char
  tunnel_name : Option (List Char)
  always_vpn : Bool
  never_vpn : Bool
  session_vpn : Bool
deriving DecidableEq

/-- `TunnelInfo` (config/mod.rs:49-55). -/
structure TunnelInfo where
  name : List Char
  protocol : List Char
  kill_switch : Bool
deriving DecidableEq

/-- `AppConfig` (config/mod.rs:18-47). -/
structure AppConfig where
  network_rules : List NetworkRule
  default_profile : Option (List Char)
  last_connected : Option (List Char)
  auto_reconnect : Bool
  kill_switch : Bool
  notifications : Bool
  known_tunnels : List TunnelInfo
deriving DecidableEq

/-- UTF-8 byte length of a character sequence (Rust `str::len`). -/
def utf8Len (l : List Char) : Nat := l.foldl (fun a c => a + c.utf8Size) 0

/-- The sanitisation `AppConfig::save` applies before serialising
(config/mod.rs:100-114): retain rules whose identifier has no ESC character,
is nonempty and has byte length > 5; then turn `Some("")` tunnel names into
`None`.  TOML (de)serialisation itself is modelled as the identity on the
record (spec §6 key/value schema), so this function is also the result of a
save-then-load round trip. -/
def saveClean (c : AppConfig) : AppConfig :=
  let rules := c.network_rules.filter fun r =>
    !r.identifier.contains '\x1b' && !r.identifier.isEmpty &&
      decide (5 < utf8Len r.identifier)
  let rules := rules.map fun r =>
    if r.tunnel_name = some [] then { r with tunnel_name := none } else r
  { c with network_rules := rules }

/-- Rust `char::is_control`: the Unicode Cc category,
U+0000–U+001F and U+007F–U+009F. -/
def rustIsControl (c : Char) : Bool :=
  decide (c.toNat ≤ 0x1f) || (decide (0x7f ≤ c.toNat) && decide (c.toNat ≤ 0x9f))

/-- The round trip C2 claims, written from the claim's words: a rule is
dropped when its identifier is empty, contains a control character, or has
length at most 5; empty tunnel names become `None`. -/
def c2ClaimedRoundTrip (c : AppConfig) : AppConfig :=
  let rules := c.network_rules.filter fun r =>
    !(r.identifier.isEmpty || r.identifier.any rustIsControl ||
      decide (utf8Len r.identifier ≤ 5))
  let rules := rules.map fun r =>
    if r.tunnel_name = some [] then { r with tunnel_name := none } else r
  { c with network_rules := rules }

/-- A rule whose identifier contains the control character `'\n'`
(but no ESC byte) and is longer than 5 bytes. -/
def c2BadRule : NetworkRule :=
  ⟨"wifi:a\nb".data, none, true, false, false⟩

def c2BadConfig : AppConfig :=
  ⟨[c2BadRule], none, none, false, false, false, []⟩

/-- C2 counterexample: saving and loading `c2BadConfig` keeps the rule whose
identifier contains the control character `'\n'`: the code only filters the
ESC byte `'\x1b'`, not every control character, so the claimed round trip
differs from the actual one. -/
theorem c2_control_char_counterexample :
    (saveClean c2BadConfig).network_rules = [c2BadRule] ∧
    c2BadRule.identifier.any rustIsControl = true ∧
    saveClean c2BadConfig ≠ c2ClaimedRoundTrip c2BadConfig := by decide

/-- The round trip per the amended claim: a rule is dropped when its
identifier is empty, contains the ESC character `'\x1b'`, or has UTF-8 byte
length at most 5; empty tunnel names become `None`; every other field is
unchanged. -/
def c2AmendedRoundTrip (c : AppConfig) : AppConfig :=
  let rules := c.network_rules.filter fun r =>
    !(r.identifier.isEmpty || r.identifier.contains '\x1b' ||
      decide (utf8Len r.identifier ≤ 5))
  let rules := rules.map fun r =>
    if r.tunnel_name = some [] then { r with tunnel_name := none } else r
  { c with network_rules := rules }

/-- C2 (amended): a save-then-load round trip normalises `Some("")` tunnel
names to `None` and drops exactly the rules whose identifier is empty,
contains ESC, or is at most 5 bytes long; all other fields round-trip
unchanged. -/
theorem c2_round_trip_amended (c : AppConfig) :
    saveClean c = c2AmendedRoundTrip c ∧
    (saveClean c).default_profile = c.default_profile ∧
    (saveClean c).last_connected = c.last_connected ∧
    (saveClean c).auto_reconnect = c.auto_reconnect ∧
    (saveClean c).kill_switch = c.kill_switch ∧
    (saveClean c).notifications = c.notifications ∧
    (saveClean c).known_tunnels = c.known_tunnels := by
  refine ⟨?_, rfl, rfl, rfl, rfl, rfl, rfl⟩
  unfold saveClean c2AmendedRoundTrip
  simp only [AppConfig.mk.injEq, and_true, true_and]
  congr 1
  apply List.filter_congr
  intro r _
  cases h1 : r.identifier.contains '\x1b' <;>
    cases h2 : r.identifier.isEmpty <;>
      by_cases h3 : 5 < utf8Len r.identifier <;>
        simp [h1, h2, h3] <;> omega

/-! ## Kill switch (src/vpn/killswitch.rs) — C1, C9, C10

The privileged helper is modelled as an oracle over an abstract state `S`:
`runOff` is the `killswitch-off` invocation (it may mutate the firewall
state and may fail to spawn, returning `none`), and `runStatus` is the
`killswitch-status` query, a read-only observation of the state. -/

/-- Captured output of one helper invocation (`std::process::Output`). -/
structure CmdOut where
  success : Bool
  stdout : List Char
  stderr : List Char
deriving DecidableEq

/-- Oracle model of the helper's kill-switch verbs over firewall state `S`. -/
structure KSWorld (S : Type) where
  runOff : S → Option CmdOut × S
  runStatus : S → Option CmdOut

/-- Rust `str::trim` (ASCII whitespace at both ends). -/
def trimL (l : List Char) : List Char :=
  ((l.dropWhile Char.isWhitespace).reverse.dropWhile Char.isWhitespace).reverse

/-- Embedding of `is_enabled` (killswitch.rs:68-74): if the
`killswitch-status` call yields output, report whether its trimmed stdout is
exactly `"enabled"`; a failed invocation yields `Ok(false)`.  The function
never returns an error. -/
def ks_is_enabledE {S : Type} (w : KSWorld S) (s : S) : Except (List Char) Bool :=
  match w.runStatus s with
  | some o => .ok (decide (trimL o.stdout = "enabled".data))
  | none => .ok false

/-- `is_enabled().await.unwrap_or(false)` as used inside `disable`. -/
def ks_is_enabled {S : Type} (w : KSWorld S) (s : S) : Bool :=
  match ks_is_enabledE w s with
  | .ok b => b
  | .error _ => false

/-- Helper verbs observable in a `disable` run. -/
inductive KSVerb where
  | off
  | status
deriving DecidableEq

/-- Result of a `disable` run: outcome, final firewall state, and the
sequence of helper verbs invoked. -/
structure DisableOut (S : Type) where
  res : Except (List Char) Unit
  state : S
  trace : List KSVerb

/-- Embedding of `disable` (killswitch.rs:26-64): run `killswitch-off`
(first-attempt failures and stderr — including "No such file" / "does not
exist" — only affect logging, never the outcome); verify via
`killswitch-status`; if still enabled, run `killswitch-off` once more and
re-verify; fail only if the switch is still enabled after the retry. -/
def ks_disable {S : Type} (w : KSWorld S) (s : S) : DisableOut S :=
  let s1 := (w.runOff s).2
  if ks_is_enabled w s1 then
    let s2 := (w.runOff s1).2
    if ks_is_enabled w s2 then
      ⟨.error "Failed to disable kill switch after multiple attempts".data, s2,
        [.off, .status, .off, .status]⟩
    else ⟨.ok (), s2, [.off, .status, .off, .status]⟩
  else ⟨.ok (), s1, [.off, .status]⟩

/-- C1: `disable` first calls `killswitch-off` then checks the status,
retrying the pair at most once; it fails exactly when both status checks
report "enabled"; and whenever it returns `Ok`, a subsequent `is_enabled`
query on the resulting firewall state reports `false`. -/
theorem c1_disable_verified {S : Type} (w : KSWorld S) (s : S) :
    ((ks_disable w s).trace = [.off, .status] ∨
      (ks_disable w s).trace = [.off, .status, .off, .status]) ∧
    ((ks_disable w s).res = .error
        "Failed to disable kill switch after multiple attempts".data ↔
      (ks_is_enabled w (w.runOff s).2 = true ∧
        ks_is_enabled w (w.runOff (w.runOff s).2).2 = true)) ∧
    ((ks_disable w s).res = .ok () →
      ks_is_enabled w (ks_disable w s).state = false) := by
  unfold ks_disable
  by_cases h1 : ks_is_enabled w (w.runOff s).2
  · by_cases h2 : ks_is_enabled w (w.runOff (w.runOff s).2).2
    · simp [h1, h2]
    · simp [h1, h2]
  · simp [h1]

/-- Concrete two-state world used as a witness: the firewall state is a
`Bool` (kill switch armed?), `killswitch-off` clears it, and
`killswitch-status` prints `"enabled"` or `"disabled"` accordingly. -/
def ksExampleWorld : KSWorld Bool where
  runOff := fun _ => (some ⟨true, [], []⟩, false)
  runStatus := fun b =>
    some ⟨true, (if b then "enabled" else "disabled").data, []⟩

/-- Witness for `c1_disable_verified`: in `ksExampleWorld`, `disable` from
the armed state returns `Ok` and the subsequent `is_enabled` is `false`. -/
theorem c1_disable_verified_witness :
    ks_is_enabled ksExampleWorld (ks_disable ksExampleWorld true).state = false :=
  (c1_disable_verified ksExampleWorld true).2.2 rfl

/-- C10: when the `killswitch-status` helper invocation itself fails,
`is_enabled` returns `Ok(false)` rather than an error. -/
theorem c10_is_enabled_helper_failure {S : Type} (w : KSWorld S) (s : S)
    (h : w.runStatus s = none) : ks_is_enabledE w s = .ok false := by
  unfold ks_is_enabledE
  rw [h]

/-- World whose status query cannot be spawned at all. -/
def ksDeadWorld : KSWorld Unit where
  runOff := fun _ => (none, ())
  runStatus := fun _ => none

/-- Witness for `c10_is_enabled_helper_failure`. -/
theorem c10_is_enabled_helper_failure_witness :
    ks_is_enabledE ksDeadWorld () = .ok false :=
  c10_is_enabled_helper_failure ksDeadWorld () rfl

/-! ## C9: kill-switch enable (src/vpn/killswitch.rs, `enable`) -/

/-- `WgStatus` (wireguard.rs:15-26). -/
structure WgStatus where
  connected : Bool
  interface : Option (List Char)
  endpoint : Option (List Char)
  latest_handshake : Option (List Char)
  transfer_rx : Option (List Char)
  transfer_tx : Option (List Char)
  handshake_stale : Bool
  has_traffic : Bool
  routing_ok : Bool
deriving DecidableEq

/-- `WgStatus::default()`. -/
def wgStatusDefault : WgStatus :=
  ⟨false, none, none, none, none, none, false, false, false⟩

/-- Embedding of `enable` (killswitch.rs:7-22), parametrised by the result
of `get_status()` and by the helper oracle for `killswitch-on <iface>`.
Returns the operation's outcome together with the interface name passed to
`killswitch-on` (`none` when the verb was never invoked). -/
def ks_enable (statusRes : Except (List Char) WgStatus)
    (ksOn : List Char → Option CmdOut) :
    Except (List Char) Unit × Option (List Char) :=
  match statusRes with
  | .error e => (.error e, none)
  | .ok st =>
    let iface := st.interface.getD "wg0".data
    match ksOn iface with
    | none => (.error "helper spawn failed".data, some iface)
    | some out =>
      if out.success then (.ok (), some iface)
      else (.error out.stderr, some iface)

/-- C9: when the tunnel status reports no active interface, `enable` still
invokes `killswitch-on`, with the hard-coded interface name `"wg0"`. -/
theorem c9_enable_defaults_to_wg0 (st : WgStatus)
    (ksOn : List Char → Option CmdOut) (h : st.interface = none) :
    (ks_enable (.ok st) ksOn).2 = some "wg0".data := by
  simp only [ks_enable, h, Option.getD_none]
  cases ksOn "wg0".data with
  | none => rfl
  | some out =>
    by_cases hs : out.success = true
    · simp [hs]
    · simp [hs]

/-- Witness for `c9_enable_defaults_to_wg0`: disconnected default status and
a helper that accepts the verb. -/
theorem c9_enable_defaults_to_wg0_witness :
    (ks_enable (.ok wgStatusDefault) (fun _ => some ⟨true, [], []⟩)).2 =
      some "wg0".data :=
  c9_enable_defaults_to_wg0 wgStatusDefault (fun _ => some ⟨true, [], []⟩) rfl

/-! ## C4: pending-change arbiter (src/app.rs) -/

/-- `PendingAction` (app.rs:21-27). -/
inductive PendingAction where
  | connect
  | disconnect
  | reconnect
  | killSwitchOn
  | killSwitchOff
deriving DecidableEq

/-- `PendingChange` (app.rs:11-18). -/
structure PendingChange where
  network_id : List Char
  network_name : List Char
  tunnel_name : Option (List Char)
  action : PendingAction
deriving DecidableEq

/-- `COUNTDOWN_SECONDS` (app.rs:30). -/
def COUNTDOWN_SECONDS : Nat := 4

/-- The arbiter's slice of `App` state: the single `Option`-valued pending
slot, the countdown start instant (monotonic seconds) and the display
counter (app.rs:91-93). -/
structure ArbState where
  pending_change : Option PendingChange
  countdown_start : Option Nat
  countdown_seconds : Nat
deriving DecidableEq

/-- `schedule_change` (app.rs:1506-1510): overwrite the slot, restart the
countdown at `COUNTDOWN_SECONDS`. -/
def schedule_change (_s : ArbState) (change : PendingChange) (now : Nat) : ArbState :=
  ⟨some change, some now, COUNTDOWN_SECONDS⟩

/-- `cancel_pending_change` (app.rs:1513-1517). -/
def cancel_pending_change (_s : ArbState) : ArbState := ⟨none, none, 0⟩

/-- The countdown portion of `App::tick` (app.rs:1146-1155) combined with the
slot handling of `apply_pending_change` (app.rs:1370-1372): when a countdown
is running and has elapsed, the slot is taken (returned as the applied
change) and cleared.  `now - start` saturates like `Instant::elapsed`. -/
def arb_tick (s : ArbState) (now : Nat) : ArbState × Option PendingChange :=
  match s.countdown_start with
  | none => (s, none)
  | some start =>
    let remaining := COUNTDOWN_SECONDS - (now - start)
    if remaining = 0 then
      match s.pending_change with
      | some c => (⟨none, none, 0⟩, some c)
      | none => ({ s with countdown_seconds := remaining }, none)
    else ({ s with countdown_seconds := remaining }, none)

/-- C4: the pending slot is a single `Option` (so at most one change is ever
pending); scheduling replaces whatever was pending and resets the countdown
to 4; cancelling empties the slot; and a tick applies only the change that
is currently in the slot — hence a replaced or cancelled change is never
applied. -/
theorem c4_arbiter_single_slot :
    (∀ (s : ArbState) (c₁ c₂ : PendingChange),
      s.pending_change = some c₁ → s.pending_change = some c₂ → c₁ = c₂) ∧
    (∀ (s : ArbState) (c : PendingChange) (now : Nat),
      schedule_change s c now =
        ⟨some c, some now, COUNTDOWN_SECONDS⟩ ∧ COUNTDOWN_SECONDS = 4) ∧
    (∀ s : ArbState, (cancel_pending_change s).pending_change = none) ∧
    (∀ (s : ArbState) (now : Nat) (c : PendingChange),
      (arb_tick s now).2 = some c →
      s.pending_change = some c ∧ (arb_tick s now).1.pending_change = none) := by
  refine ⟨fun s c₁ c₂ h₁ h₂ => ?_, fun s c now => ⟨rfl, rfl⟩, fun s => rfl,
    fun s now c h => ?_⟩
  · rw [h₁] at h₂
    exact Option.some_inj.mp h₂
  · obtain ⟨p, cs, sec⟩ := s
    cases cs with
    | none => simp [arb_tick] at h
    | some start =>
      simp only [arb_tick] at h ⊢
      by_cases hrem : COUNTDOWN_SECONDS - (now - start) = 0
      · simp only [if_pos hrem] at h ⊢
        cases p with
        | none => simp at h
        | some c' =>
          simp only at h
          cases h
          exact ⟨rfl, rfl⟩
      · simp only [if_neg hrem] at h
        simp at h

/-- Witness for `c4_arbiter_single_slot` at a concrete state: a change
scheduled at instant 0 is the one applied by a tick at instant 10. -/
theorem c4_arbiter_single_slot_witness :
    (⟨some ⟨[], [], none, .connect⟩, some 0, 4⟩ : ArbState).pending_change =
        some ⟨[], [], none, PendingAction.connect⟩ ∧
      (arb_tick ⟨some ⟨[], [], none, .connect⟩, some 0, 4⟩ 10).1.pending_change =
        none :=
  c4_arbiter_single_slot.2.2.2 ⟨some ⟨[], [], none, .connect⟩, some 0, 4⟩ 10
    ⟨[], [], none, .connect⟩ rfl

/-! ## C5: rule cycle (src/app.rs, `cycle_tunnel_rule`) -/

/-- The first rule matching an identifier (`find` at app.rs:584-587). -/
def ruleFor (rules : List NetworkRule) (id : List Char) : Option NetworkRule :=
  rules.find? fun r => decide (r.identifier = id)

/-- The rules-list transformation performed by `cycle_tunnel_rule`
(app.rs:569-668) for a network with identifier `id`, together with the
pending action it selects.  `firstTunnel` is `self.tunnels.first()`'s name.
The old rule is removed (`retain`), the tunnel selection is preserved, and
the new mode follows the match at app.rs:596-640. -/
def cycle_tunnel_rule (rules : List NetworkRule) (id : List Char)
    (firstTunnel : Option (List Char)) :
    List NetworkRule × Option PendingAction :=
  let current := ruleFor rules id
  let kept := rules.filter fun r => decide (r.identifier ≠ id)
  let current_tunnel := current.bind (·.tunnel_name)
  match current with
  | none =>
    let tn := match current_tunnel with
      | some t => some t
      | none => firstTunnel
    (kept ++ [⟨id, tn, true, false, false⟩],
      if tn.isSome then some .connect else none)
  | some r =>
    if r.always_vpn then
      (kept ++ [⟨id, current_tunnel, false, true, false⟩], some .disconnect)
    else if r.never_vpn then
      (kept ++ [⟨id, current_tunnel, false, false, true⟩],
        if current_tunnel.isSome then some .connect else none)
    else
      (kept, some .disconnect)

theorem ruleFor_filter_ne (rules : List NetworkRule) (id : List Char) :
    ruleFor (rules.filter fun r => decide (r.identifier ≠ id)) id = none := by
  rw [ruleFor, List.find?_eq_none]
  intro x hx
  have := (List.mem_filter.mp hx).2
  simp only [decide_eq_true_eq] at this
  simp [this]

theorem ruleFor_keep_append (rules : List NetworkRule) (id : List Char)
    (r : NetworkRule) (hr : r.identifier = id) :
    ruleFor ((rules.filter fun x => decide (x.identifier ≠ id)) ++ [r]) id =
      some r := by
  rw [ruleFor, List.find?_append]
  have h1 : ruleFor (rules.filter fun x => decide (x.identifier ≠ id)) id = none :=
    ruleFor_filter_ne rules id
  rw [ruleFor] at h1
  rw [h1]
  simp [List.find?, hr]

theorem filter_ne_keep_append (rules : List NetworkRule) (id : List Char)
    (r : NetworkRule) (hr : r.identifier = id) :
    ((rules.filter fun x => decide (x.identifier ≠ id)) ++ [r]).filter
        (fun x => decide (x.identifier ≠ id)) =
      rules.filter fun x => decide (x.identifier ≠ id) := by
  rw [List.filter_append, List.filter_filter]
  have h2 : (List.filter (fun x => decide (x.identifier ≠ id)) [r]) = [] := by
    simp [List.filter, hr]
  rw [h2, List.append_nil]
  apply List.filter_congr
  intro x _
  exact Bool.and_self _

theorem cycle_step_none (rules : List NetworkRule) (id : List Char)
    (ft : Option (List Char)) (h : ruleFor rules id = none) :
    (cycle_tunnel_rule rules id ft).1 =
      (rules.filter fun r => decide (r.identifier ≠ id)) ++
        [⟨id, ft, true, false, false⟩] := by
  simp only [cycle_tunnel_rule, h, Option.bind]

theorem cycle_step_always (rules : List NetworkRule) (id : List Char)
    (ft : Option (List Char)) (r : NetworkRule) (h : ruleFor rules id = some r)
    (ha : r.always_vpn = true) :
    (cycle_tunnel_rule rules id ft).1 =
      (rules.filter fun x => decide (x.identifier ≠ id)) ++
        [⟨id, r.tunnel_name, false, true, false⟩] := by
  simp only [cycle_tunnel_rule, h, Option.bind]
  rw [if_pos ha]

theorem cycle_step_never (rules : List NetworkRule) (id : List Char)
    (ft : Option (List Char)) (r : NetworkRule) (h : ruleFor rules id = some r)
    (ha : r.always_vpn = false) (hn : r.never_vpn = true) :
    (cycle_tunnel_rule rules id ft).1 =
      (rules.filter fun x => decide (x.identifier ≠ id)) ++
        [⟨id, r.tunnel_name, false, false, true⟩] := by
  simp only [cycle_tunnel_rule, h, Option.bind]
  rw [if_neg (by simp [ha]), if_pos hn]

theorem cycle_step_session (rules : List NetworkRule) (id : List Char)
    (ft : Option (List Char)) (r : NetworkRule) (h : ruleFor rules id = some r)
    (ha : r.always_vpn = false) (hn : r.never_vpn = false) :
    (cycle_tunnel_rule rules id ft).1 =
      rules.filter fun x => decide (x.identifier ≠ id) := by
  simp only [cycle_tunnel_rule, h, Option.bind]
  rw [if_neg (by simp [ha]), if_neg (by simp [hn])]

/-- C5: starting from a state with no rule for the network's identifier,
four successive presses of the rule cycle produce the modes Always, Never,
Session and then no rule again — a closed cycle of length 4.  Each of the
three intermediate rules carries exactly one of the three mode flags, and
the tunnel selection made at the first step is preserved along the cycle. -/
theorem c5_rule_cycle (rules : List NetworkRule) (id : List Char)
    (ft : Option (List Char)) (h : ruleFor rules id = none) :
    ruleFor ((cycle_tunnel_rule rules id ft).1) id =
        some ⟨id, ft, true, false, false⟩ ∧
      ruleFor ((cycle_tunnel_rule (cycle_tunnel_rule rules id ft).1 id ft).1) id =
        some ⟨id, ft, false, true, false⟩ ∧
      ruleFor ((cycle_tunnel_rule
          (cycle_tunnel_rule (cycle_tunnel_rule rules id ft).1 id ft).1 id ft).1) id =
        some ⟨id, ft, false, false, true⟩ ∧
      ruleFor ((cycle_tunnel_rule (cycle_tunnel_rule
          (cycle_tunnel_rule (cycle_tunnel_rule rules id ft).1 id ft).1 id ft).1
            id ft).1) id = none := by
  have e1 := cycle_step_none rules id ft h
  have g1 : ruleFor ((rules.filter fun x => decide (x.identifier ≠ id)) ++
      [⟨id, ft, true, false, false⟩]) id = some ⟨id, ft, true, false, false⟩ :=
    ruleFor_keep_append rules id _ rfl
  have e2 : (cycle_tunnel_rule ((rules.filter fun x => decide (x.identifier ≠ id)) ++
        [⟨id, ft, true, false, false⟩]) id ft).1 =
      (rules.filter fun x => decide (x.identifier ≠ id)) ++
        [⟨id, ft, false, true, false⟩] := by
    rw [cycle_step_always _ id ft _ g1 rfl, filter_ne_keep_append rules id _ rfl]
  have g2 : ruleFor ((rules.filter fun x => decide (x.identifier ≠ id)) ++
      [⟨id, ft, false, true, false⟩]) id = some ⟨id, ft, false, true, false⟩ :=
    ruleFor_keep_append rules id _ rfl
  have e3 : (cycle_tunnel_rule ((rules.filter fun x => decide (x.identifier ≠ id)) ++
        [⟨id, ft, false, true, false⟩]) id ft).1 =
      (rules.filter fun x => decide (x.identifier ≠ id)) ++
        [⟨id, ft, false, false, true⟩] := by
    rw [cycle_step_never _ id ft _ g2 rfl rfl, filter_ne_keep_append rules id _ rfl]
  have g3 : ruleFor ((rules.filter fun x => decide (x.identifier ≠ id)) ++
      [⟨id, ft, false, false, true⟩]) id = some ⟨id, ft, false, false, true⟩ :=
    ruleFor_keep_append rules id _ rfl
  have e4 : (cycle_tunnel_rule ((rules.filter fun x => decide (x.identifier ≠ id)) ++
        [⟨id, ft, false, false, true⟩]) id ft).1 =
      rules.filter fun x => decide (x.identifier ≠ id) := by
    rw [cycle_step_session _ id ft _ g3 rfl rfl, filter_ne_keep_append rules id _ rfl]
  refine ⟨by rw [e1]; exact g1, by rw [e1, e2]; exact g2,
    by rw [e1, e2, e3]; exact g3, by rw [e1, e2, e3, e4]; exact ruleFor_filter_ne rules id⟩

/-- Witness for `c5_rule_cycle`: empty rule store, identifier `"wifi:home"`,
first tunnel `"t0"`. -/
theorem c5_rule_cycle_witness :
    ruleFor ((cycle_tunnel_rule [] "wifi:home".data (some "t0".data)).1)
        "wifi:home".data =
      some ⟨"wifi:home".data, some "t0".data, true, false, false⟩ ∧
    ruleFor ((cycle_tunnel_rule (cycle_tunnel_rule [] "wifi:home".data
        (some "t0".data)).1 "wifi:home".data (some "t0".data)).1) "wifi:home".data =
      some ⟨"wifi:home".data, some "t0".data, false, true, false⟩ ∧
    ruleFor ((cycle_tunnel_rule (cycle_tunnel_rule (cycle_tunnel_rule []
        "wifi:home".data (some "t0".data)).1 "wifi:home".data
        (some "t0".data)).1 "wifi:home".data (some "t0".data)).1) "wifi:home".data =
      some ⟨"wifi:home".data, some "t0".data, false, false, true⟩ ∧
    ruleFor ((cycle_tunnel_rule (cycle_tunnel_rule (cycle_tunnel_rule
        (cycle_tunnel_rule [] "wifi:home".data (some "t0".data)).1
        "wifi:home".data (some "t0".data)).1 "wifi:home".data
        (some "t0".data)).1 "wifi:home".data (some "t0".data)).1) "wifi:home".data =
      none :=
  c5_rule_cycle [] "wifi:home".data (some "t0".data) rfl

/-! ## C6: network identifier (src/network/mod.rs, `NetworkInfo::identifier`) -/

/-- `NetworkInfo` (network/mod.rs:7-14). -/
structure NetworkInfo where
  name : List Char
  network_type : List Char
  device : List Char
  connected : Bool
  ssid : Option (List Char)
deriving DecidableEq

/-- Embedding of `NetworkInfo::identifier` (network/mod.rs:18-26). -/
def NetworkInfo.identifier (n : NetworkInfo) : List Char :=
  match n.ssid with
  | some ssid => "wifi:".data ++ ssid
  | none =>
    if !n.name.isEmpty && decide (n.name ≠ n.device) then "network:".data ++ n.name
    else "device:".data ++ n.device

theorem startsWithL_append (pat rest : List Char) :
    startsWithL pat (pat ++ rest) = true := by
  induction pat with
  | nil => rfl
  | cons p ps ih => simp [startsWithL, ih]

/-- C6: the identifier is `wifi:<SSID>` whenever an SSID is known,
`network:<name>` when there is no SSID but the name is nonempty and differs
from the device, `device:<dev>` otherwise; and for any known SSID the
identifier carries the `wifi:` prefix with the SSID recoverable
byte-for-byte by dropping that prefix. -/
theorem c6_identifier_shape (n : NetworkInfo) :
    (∀ s, n.ssid = some s →
      n.identifier = "wifi:".data ++ s ∧
        startsWithL "wifi:".data n.identifier = true ∧
        n.identifier.drop 5 = s) ∧
    (n.ssid = none → ¬n.name.isEmpty → n.name ≠ n.device →
      n.identifier = "network:".data ++ n.name) ∧
    (n.ssid = none → (n.name.isEmpty = true ∨ n.name = n.device) →
      n.identifier = "device:".data ++ n.device) := by
  refine ⟨fun s hs => ?_, fun hn h1 h2 => ?_, fun hn h => ?_⟩
  · have hid : n.identifier = "wifi:".data ++ s := by
      simp only [NetworkInfo.identifier, hs]
    refine ⟨hid, ?_, ?_⟩
    · rw [hid]
      exact startsWithL_append "wifi:".data s
    · rw [hid]
      have h5 : ("wifi:".data).length = 5 := rfl
      rw [← h5, List.drop_left]
  · simp only [NetworkInfo.identifier, hn]
    rw [if_pos (by simp [h1, h2])]
  · simp only [NetworkInfo.identifier, hn]
    rw [if_neg (by rcases h with h | h <;> simp [h])]

/-- Witness for `c6_identifier_shape` on the three identifier shapes. -/
theorem c6_identifier_shape_witness :
    (⟨"Cafe".data, "wifi".data, "wlan0".data, true, some "Cafe".data⟩ :
        NetworkInfo).identifier = "wifi:".data ++ "Cafe".data ∧
    (⟨"office".data, "ethernet".data, "eth0".data, true, none⟩ :
        NetworkInfo).identifier = "network:".data ++ "office".data ∧
    (⟨"eth0".data, "ethernet".data, "eth0".data, true, none⟩ :
        NetworkInfo).identifier = "device:".data ++ "eth0".data :=
  ⟨((c6_identifier_shape _).1 _ rfl).1,
   (c6_identifier_shape _).2.1 rfl (by decide) (by decide),
   (c6_identifier_shape _).2.2 rfl (Or.inr rfl)⟩

/-! ## C7: `list_profiles` pruning (src/vpn/wireguard.rs:29-117) -/

/-- Split a character list at every occurrence of `sep`
(Rust `str::split(sep)`). -/
def splitOnCharAux (sep : Char) : List Char → List Char → List (List Char)
  | [], acc => [acc.reverse]
  | c :: rest, acc =>
    if c = sep then acc.reverse :: splitOnCharAux sep rest []
    else splitOnCharAux sep rest (c :: acc)

def splitOnChar (sep : Char) (l : List Char) : List (List Char) :=
  splitOnCharAux sep l []

/-- Rust `str::lines`: split on `'\n'`, drop a trailing empty line, strip a
trailing `'\r'` from each line. -/
def rustLines (l : List Char) : List (List Char) :=
  if l.isEmpty then []
  else
    let parts := splitOnChar '\n' l
    let parts := if parts.getLast? = some [] then parts.dropLast else parts
    parts.map fun p => if p.getLast? = some '\r' then p.dropLast else p

/-- The interface name parsed from one `ip -o link show` line
(wireguard.rs:61-67): the second `':'`-separated field, trimmed, up to any
`'@'`. -/
def ipLinkName (line : List Char) : Option (List Char) :=
  match (splitOnChar ':' line).get? 1 with
  | some n =>
    let n' := (splitOnChar '@' (trimL n)).headD []
    if n'.isEmpty then none else some n'
  | none => none

/-- Insert preserving first-insertion order, skipping duplicates
(the `HashSet::insert` calls; only membership is observable). -/
def insertNew (l : List (List Char)) (x : List Char) : List (List Char) :=
  if x ∈ l then l else l ++ [x]

/-- Names gathered from `config-list` (wireguard.rs:40-51), together with the
`could_read_config_dir` flag: set only when the helper ran and exited 0. -/
def cfgListLines (o : Option CmdOut) : Bool × List (List Char) :=
  match o with
  | some out =>
    if out.success then
      (true, ((rustLines out.stdout).map trimL).filter fun n => !n.isEmpty)
    else (false, [])
  | none => (false, [])

/-- Live WireGuard interface names from `ip link show type wireguard`
(wireguard.rs:54-70). -/
def ipLinkWgNames (o : Option CmdOut) : List (List Char) :=
  match o with
  | some out => if out.success then (rustLines out.stdout).filterMap ipLinkName else []
  | none => []

/-- `valid_configs`: union of config-list names and live interface names. -/
def validConfigsOf (configList ipLink : Option CmdOut) : List (List Char) :=
  ((cfgListLines configList).2 ++ ipLinkWgNames ipLink).foldl insertNew []

/-- `WgProfile` (wireguard.rs:8-13). -/
structure WgProfile where
  name : List Char
  protocol : List Char
  connected : Bool
deriving DecidableEq

/-- Lexicographic order on character lists (Rust `str::cmp`, `≤` flavour). -/
def lexLe : List Char → List Char → Bool
  | [], _ => true
  | _ :: _, [] => false
  | a :: as, b :: bs => if a < b then true else if b < a then false else lexLe as bs

/-- Profiles built from the (pruned) known tunnels (wireguard.rs:89-99):
wireguard entries not seen yet, `connected` iff the live interface matches. -/
def addKnownProfiles (active : Option (List Char)) (known : List TunnelInfo) :
    List WgProfile :=
  known.foldl (fun acc t =>
    if t.protocol = "wireguard".data ∧ acc.all fun p => p.name ≠ t.name then
      acc ++ [⟨t.name, "wireguard".data, decide (active = some t.name)⟩]
    else acc) []

/-- Profiles added for valid configs not already present (wireguard.rs:103-113). -/
def addValidProfiles (active : Option (List Char)) (valid : List (List Char))
    (acc : List WgProfile) : List WgProfile :=
  valid.foldl (fun acc n =>
    if acc.all fun p => p.name ≠ n then
      acc ++ [⟨n, "wireguard".data, decide (active = some n)⟩]
    else acc) acc

/-- Result of `list_profiles`: the profile list, the known-tunnels list after
any pruning (`none` when the config could not be loaded), and whether the
store was rewritten. -/
structure ListProfilesOut where
  profiles : List WgProfile
  newKnownTunnels : Option (List TunnelInfo)
  savedStore : Bool

/-- Embedding of `list_profiles` (wireguard.rs:29-117), parametrised by the
`config-list` helper result, the `ip link` result, the loaded config and the
active interface from `get_status`. -/
def list_profiles (configList ipLink : Option CmdOut) (loaded : Option AppConfig)
    (active : Option (List Char)) : ListProfilesOut :=
  let could_read := (cfgListLines configList).1
  let valid := validConfigsOf configList ipLink
  match loaded with
  | none =>
    ⟨List.insertionSort (fun a b => lexLe a.name b.name = true)
        (addValidProfiles active valid []), none, false⟩
  | some cfg =>
    let known := if could_read then
        cfg.known_tunnels.filter fun t =>
          !decide (t.protocol = "wireguard".data) || decide (t.name ∈ valid)
      else cfg.known_tunnels
    let saved := could_read && decide (known.length ≠ cfg.known_tunnels.length)
    ⟨List.insertionSort (fun a b => lexLe a.name b.name = true)
        (addValidProfiles active valid (addKnownProfiles active known)),
      some known, saved⟩

theorem filter_eq_self_of_length {α : Type} (l : List α) (p : α → Bool)
    (h : (l.filter p).length = l.length) : l.filter p = l :=
  (List.filter_sublist l).eq_of_length h

/-- C7: the persisted tunnel list is pruned (and the store rewritten) if and
only if `config-list` succeeded.  On failure or timeout the list is returned
unchanged and nothing is saved; on success exactly the wireguard-protocol
entries whose name is absent from the union of listed configs and live
interfaces are removed, and the store is rewritten exactly when some entry
was removed. -/
theorem c7_list_profiles_prune_iff (configList ipLink : Option CmdOut)
    (cfg : AppConfig) (active : Option (List Char)) :
    ((cfgListLines configList).1 = false →
      (list_profiles configList ipLink (some cfg) active).newKnownTunnels =
          some cfg.known_tunnels ∧
        (list_profiles configList ipLink (some cfg) active).savedStore = false) ∧
    ((cfgListLines configList).1 = true →
      (list_profiles configList ipLink (some cfg) active).newKnownTunnels =
          some (cfg.known_tunnels.filter fun t =>
            !(decide (t.protocol = "wireguard".data) &&
              !decide (t.name ∈ validConfigsOf configList ipLink))) ∧
        ((list_profiles configList ipLink (some cfg) active).savedStore = true ↔
          cfg.known_tunnels.filter (fun t =>
            !(decide (t.protocol = "wireguard".data) &&
              !decide (t.name ∈ validConfigsOf configList ipLink))) ≠
            cfg.known_tunnels)) := by
  have hfe : cfg.known_tunnels.filter (fun t =>
        !decide (t.protocol = "wireguard".data) ||
          decide (t.name ∈ validConfigsOf configList ipLink)) =
      cfg.known_tunnels.filter (fun t =>
        !(decide (t.protocol = "wireguard".data) &&
          !decide (t.name ∈ validConfigsOf configList ipLink))) := by
    apply List.filter_congr
    intro t _
    cases decide (t.protocol = "wireguard".data) <;>
      cases decide (t.name ∈ validConfigsOf configList ipLink) <;> rfl
  constructor
  · intro h
    simp only [list_profiles, h]
    exact ⟨rfl, rfl⟩
  · intro h
    simp only [list_profiles, h, if_true, Bool.true_and]
    refine ⟨by rw [hfe], ?_⟩
    rw [hfe]
    constructor
    · intro hs hcontra
      exact (of_decide_eq_true hs) (congrArg List.length hcontra)
    · intro hne
      exact decide_eq_true fun hlen => hne (filter_eq_self_of_length _ _ hlen)

/-- Witness for `c7_list_profiles_prune_iff`: a failed `config-list` leaves
the stored list alone; a successful empty `config-list` with no live
interfaces prunes an orphaned wireguard entry. -/
theorem c7_list_profiles_prune_iff_witness :
    ((list_profiles none none
        (some ⟨[], none, none, false, false, false,
          [⟨"vpn1".data, "wireguard".data, false⟩]⟩) none).newKnownTunnels =
      some [⟨"vpn1".data, "wireguard".data, false⟩] ∧
      (list_profiles none none
        (some ⟨[], none, none, false, false, false,
          [⟨"vpn1".data, "wireguard".data, false⟩]⟩) none).savedStore = false) ∧
    ((list_profiles (some ⟨true, [], []⟩) none
        (some ⟨[], none, none, false, false, false,
          [⟨"vpn1".data, "wireguard".data, false⟩]⟩) none).newKnownTunnels =
      some [] ∧
      ((list_profiles (some ⟨true, [], []⟩) none
        (some ⟨[], none, none, false, false, false,
          [⟨"vpn1".data, "wireguard".data, false⟩]⟩) none).savedStore = true ↔
        ([⟨"vpn1".data, "wireguard".data, false⟩] : List TunnelInfo).filter
          (fun t => !(decide (t.protocol = "wireguard".data) &&
            !decide (t.name ∈ validConfigsOf (some ⟨true, [], []⟩) none))) ≠
          [⟨"vpn1".data, "wireguard".data, false⟩])) := by
  constructor
  · exact (c7_list_profiles_prune_iff none none _ none).1 rfl
  · have h := (c7_list_profiles_prune_iff (some ⟨true, [], []⟩) none
      ⟨[], none, none, false, false, false,
        [⟨"vpn1".data, "wireguard".data, false⟩]⟩ none).2 rfl
    refine ⟨?_, h.2⟩
    rw [h.1]
    decide

/-! ## C8: `get_networks` ordering (src/network/mod.rs:30-55, 420-476) -/

theorem lexLe_cons (a b : Char) (as bs : List Char) :
    lexLe (a :: as) (b :: bs) =
      if a < b then true else if b < a then false else lexLe as bs := rfl

theorem lexLe_total : ∀ a b : List Char, lexLe a b = true ∨ lexLe b a = true := by
  intro a
  induction a with
  | nil => intro b; left; rfl
  | cons x xs ih =>
    intro b
    cases b with
    | nil => right; rfl
    | cons y ys =>
      rcases lt_trichotomy x y with h | h | h
      · left
        rw [lexLe_cons, if_pos h]
      · subst h
        rcases ih ys with h2 | h2
        · left
          rw [lexLe_cons, if_neg (lt_irrefl x), if_neg (lt_irrefl x)]
          exact h2
        · right
          rw [lexLe_cons, if_neg (lt_irrefl x), if_neg (lt_irrefl x)]
          exact h2
      · right
        rw [lexLe_cons, if_pos h]

theorem lexLe_trans :
    ∀ {a b c : List Char}, lexLe a b = true → lexLe b c = true →
      lexLe a c = true := by
  intro a
  induction a with
  | nil => intro b c _ _; rfl
  | cons x xs ih =>
    intro b c hab hbc
    cases b with
    | nil => simp [lexLe] at hab
    | cons y ys =>
      cases c with
      | nil => simp [lexLe] at hbc
      | cons z zs =>
        rw [lexLe_cons] at hab hbc ⊢
        by_cases h1 : x < y
        · by_cases h2 : y < z
          · rw [if_pos (lt_trans h1 h2)]
          · by_cases h3 : z < y
            · rw [if_neg h2, if_pos h3] at hbc
              cases hbc
            · have hyz : y = z := le_antisymm (not_lt.mp h3) (not_lt.mp h2)
              rw [if_pos (hyz ▸ h1)]
        · by_cases h1' : y < x
          · rw [if_neg h1, if_pos h1'] at hab
            cases hab
          · have hxy : x = y := le_antisymm (not_lt.mp h1') (not_lt.mp h1)
            subst hxy
            rw [if_neg h1, if_neg h1'] at hab
            by_cases h2 : x < z
            · rw [if_pos h2]
            · by_cases h3 : z < x
              · rw [if_neg h2, if_pos h3] at hbc
                cases hbc
              · rw [if_neg h2, if_neg h3] at hbc ⊢
                exact ih hab hbc

/-- The comparator in `networks.sort_by` (network/mod.rs:253-259, 408-414),
as a ≤-relation: a connected record sorts before a disconnected one, and
within a group the lowercased display names are compared. -/
def netLe (a b : NetworkInfo) : Bool :=
  if a.connected && !b.connected then true
  else if !a.connected && b.connected then false
  else lexLe (lowerL a.name) (lowerL b.name)

theorem netLe_total : ∀ a b : NetworkInfo, netLe a b = true ∨ netLe b a = true := by
  intro a b
  cases ha : a.connected <;> cases hb : b.connected
  · simp only [netLe, ha, hb, Bool.false_and, Bool.not_false, Bool.and_false,
      Bool.false_eq_true, if_false]
    exact lexLe_total _ _
  · right
    simp [netLe, ha, hb]
  · left
    simp [netLe, ha, hb]
  · simp only [netLe, ha, hb, Bool.not_true, Bool.and_false, Bool.false_eq_true,
      if_false]
    exact lexLe_total _ _

theorem netLe_trans : ∀ a b c : NetworkInfo,
    netLe a b = true → netLe b c = true → netLe a c = true := by
  intro a b c hab hbc
  cases ha : a.connected <;> cases hb : b.connected <;> cases hc : c.connected
  · simp only [netLe, ha, hb, hc, Bool.false_and, Bool.not_false, Bool.and_false,
      Bool.false_eq_true, if_false] at hab hbc ⊢
    exact lexLe_trans hab hbc
  · simp [netLe, hb, hc] at hbc
  · simp [netLe, ha, hb] at hab
  · simp [netLe, ha, hb] at hab
  · simp [netLe, ha, hc]
  · simp [netLe, hb, hc] at hbc
  · simp [netLe, ha, hc]
  · simp only [netLe, ha, hb, hc, Bool.not_true, Bool.and_false, Bool.true_and,
      Bool.false_eq_true, if_false] at hab hbc ⊢
    exact lexLe_trans hab hbc

instance : IsTotal NetworkInfo fun a b => netLe a b = true := ⟨netLe_total⟩

instance : IsTrans NetworkInfo fun a b => netLe a b = true := ⟨netLe_trans⟩

/-- `networks.sort_by(connected-first, then name)`: a stable sort by the
comparator, modelled as insertion sort. -/
def sortNets (l : List NetworkInfo) : List NetworkInfo :=
  List.insertionSort (fun a b => netLe a b = true) l

theorem sorted_sortNets (l : List NetworkInfo) :
    List.Sorted (fun a b => netLe a b = true) (sortNets l) :=
  List.sorted_insertionSort _ l

/-- Embedding of `get_basic_networks` (network/mod.rs:420-476): parse each
`ip -o link show` line, skip loopback/virtual devices, keep `wl*` (wifi) and
`en*`/`eth*` (ethernet) devices, report `connected` iff the line mentions
"state UP", and attach the `iw`-queried SSID to the connected wifi device.
The records are pushed in enumeration order — no sort is applied. -/
def get_basic_networks (ipLines : List (List Char))
    (activeSsid : Option (List Char)) : List NetworkInfo :=
  ipLines.filterMap fun line =>
    match (splitOnChar ':' line).get? 1 with
    | none => none
    | some p1 =>
      let device := (splitOnChar '@' (trimL p1)).headD []
      if device = "lo".data ∨ startsWithL "veth".data device = true ∨
          startsWithL "docker".data device = true ∨
          startsWithL "br-".data device = true then none
      else
        let is_wifi := startsWithL "wl".data device
        let is_ethernet :=
          startsWithL "en".data device || startsWithL "eth".data device
        if !is_wifi && !is_ethernet then none
        else
          let network_type := if is_wifi then "wifi".data else "ethernet".data
          let connected := containsSub line "state UP".data
          let ns : List Char × Option (List Char) :=
            if is_wifi && connected then
              match activeSsid with
              | some s => (s, some s)
              | none => (device, none)
            else (device, none)
          some ⟨ns.1, network_type, device, connected, ns.2⟩

/-- The `get_basic_networks` fallback of `get_networks` (network/mod.rs:50-54):
a spawn failure of `ip` yields no records. -/
def fallbackNetworks (basic : Option (List (List Char)))
    (activeSsid : Option (List Char)) : List NetworkInfo :=
  match basic with
  | some lines => get_basic_networks lines activeSsid
  | none => []

/-- Embedding of `get_networks` (network/mod.rs:30-55): use the iwd listing
when it is nonempty, else the NetworkManager listing when nonempty, else the
raw-interface fallback.  `iwdRaw`/`nmRaw` are the records parsed from those
sources before their final sort (`none` = the source errored). -/
def get_networks (iwdRaw nmRaw : Option (List NetworkInfo))
    (basic : Option (List (List Char))) (activeSsid : Option (List Char)) :
    List NetworkInfo :=
  let tryNm : List NetworkInfo :=
    match nmRaw with
    | some l => if !(sortNets l).isEmpty then sortNets l
        else fallbackNetworks basic activeSsid
    | none => fallbackNetworks basic activeSsid
  match iwdRaw with
  | some l => if !(sortNets l).isEmpty then sortNets l else tryNm
  | none => tryNm

/-- C8 counterexample: with both rich sources empty, `get_networks` falls
back to raw interface enumeration and returns a disconnected device strictly
before a connected one — the promised connected-first order is violated on
the fallback path. -/
theorem c8_fallback_unsorted_counterexample :
    get_networks (some []) (some [])
        (some
          ["2: eth1: <BROADCAST,MULTICAST> mtu 1500 qdisc noop state DOWN mode DEFAULT group default qlen 1000".data,
           "3: eth0: <BROADCAST,MULTICAST,UP,LOWER_UP> mtu 1500 qdisc fq_codel state UP mode DEFAULT group default qlen 1000".data])
        none =
      [⟨"eth1".data, "ethernet".data, "eth1".data, false, none⟩,
       ⟨"eth0".data, "ethernet".data, "eth0".data, true, none⟩] ∧
    netLe ⟨"eth1".data, "ethernet".data, "eth1".data, false, none⟩
        ⟨"eth0".data, "ethernet".data, "eth0".data, true, none⟩ = false := by
  constructor
  · decide
  · decide

/-- C8 (amended): any `get_networks` result is either the raw-interface
fallback output (returned in enumeration order, unsorted) or is sorted
connected-first and then case-insensitively by name; on the iwd path the
result is exactly the sorted iwd listing. -/
theorem c8_get_networks_ordering (iwdRaw nmRaw : Option (List NetworkInfo))
    (basic : Option (List (List Char))) (activeSsid : Option (List Char)) :
    (get_networks iwdRaw nmRaw basic activeSsid =
        fallbackNetworks basic activeSsid ∨
      List.Sorted (fun a b => netLe a b = true)
        (get_networks iwdRaw nmRaw basic activeSsid)) ∧
    (∀ l, iwdRaw = some l → (sortNets l).isEmpty = false →
      get_networks iwdRaw nmRaw basic activeSsid = sortNets l ∧
        List.Sorted (fun a b => netLe a b = true) (sortNets l)) := by
  constructor
  · simp only [get_networks]
    cases iwdRaw with
    | some l =>
      cases hl : (sortNets l).isEmpty with
      | false =>
        simp only [hl, Bool.not_false, if_true]
        exact Or.inr (sorted_sortNets l)
      | true =>
        simp only [hl, Bool.not_true, Bool.false_eq_true, if_false]
        cases nmRaw with
        | some m =>
          cases hm : (sortNets m).isEmpty with
          | false =>
            simp only [hm, Bool.not_false, if_true]
            exact Or.inr (sorted_sortNets m)
          | true =>
            simp only [hm, Bool.not_true, Bool.false_eq_true, if_false]
            exact Or.inl trivial
        | none => exact Or.inl rfl
    | none =>
      cases nmRaw with
      | some m =>
        cases hm : (sortNets m).isEmpty with
        | false =>
          simp only [hm, Bool.not_false, if_true]
          exact Or.inr (sorted_sortNets m)
        | true =>
          simp only [hm, Bool.not_true, Bool.false_eq_true, if_false]
          exact Or.inl trivial
      | none => exact Or.inl rfl
  · intro l hl hne
    subst hl
    simp only [get_networks, hne, Bool.not_false, if_true]
    exact ⟨trivial, sorted_sortNets l⟩

/-- Witness for `c8_get_networks_ordering` at a one-record iwd listing. -/
theorem c8_get_networks_ordering_witness :
    get_networks (some [⟨"home".data, "wifi".data, "wlan0".data, true,
        some "home".data⟩]) none none none =
      sortNets [⟨"home".data, "wifi".data, "wlan0".data, true, some "home".data⟩] ∧
    List.Sorted (fun a b => netLe a b = true)
      (sortNets [⟨"home".data, "wifi".data, "wlan0".data, true,
        some "home".data⟩]) :=
  (c8_get_networks_ordering _ none none none).2 _ rfl rfl
